import Mathlib

/-!
Verification development for the langchain-toon-output-parser repository.

The repository wires a Zod schema to a TOON-notation workflow:
`zod-to-toon-instructions.ts` introspects the schema and synthesizes prompt
instructions, and `toon-output-parser.ts` extracts TOON content from a model
response, hands it to the external `@toon-format/toon` decoder, and validates
the decoded tree against the schema.  Below, each source function is embedded
as an executable Lean definition; text is modelled as `List Char` where the
embedding has to mirror JavaScript regex matching character by character.
-/

namespace ToonRepo

/-- JavaScript whitespace (the character class used both by the regex
class in `extractToonContent` and by `String.prototype.trim`), restricted
to the common code points. -/
def isJsWs (c : Char) : Bool :=
  c = ' ' || c = '\t' || c = '\n' || c = '\r' || c = '\u000B' ||
  c = '\u000C' || c = ' ' || c = '﻿'

/-- Leading-whitespace strip, one half of JavaScript trim. -/
def ltrimWs (cs : List Char) : List Char := cs.dropWhile isJsWs

/-- Trailing-whitespace strip, the other half of JavaScript trim. -/
def rtrimWs (cs : List Char) : List Char := (cs.reverse.dropWhile isJsWs).reverse

/-- JavaScript `String.prototype.trim` on a character list. -/
def jsTrim (cs : List Char) : List Char := rtrimWs (ltrimWs cs)

/-- Boolean infix test: does `p` occur as a contiguous run inside `l`? -/
def infixB (p : List Char) : List Char → Bool
  | [] => p.isEmpty
  | c :: cs => p.isPrefixOf (c :: cs) || infixB p cs

/-- JavaScript `Array.prototype.join(sep)`. -/
def joinSep (sep : String) : List String → String
  | [] => ""
  | [x] => x
  | x :: y :: rest => x ++ sep ++ joinSep sep (y :: rest)

/-- JavaScript `String.prototype.repeat`. -/
def strRepeat (s : String) : Nat → String
  | 0 => ""
  | n + 1 => s ++ strRepeat s n

/-- The triple-backtick fence marker of the extraction regex. -/
def tbt : List Char := ['\x60', '\x60', '\x60']

/-- The characters of the `toon` fence tag. -/
def toonTag : List Char := ['t', 'o', 'o', 'n']

/-- The characters of the `yaml` fence tag. -/
def yamlTag : List Char := ['y', 'a', 'm', 'l']

/-- The closing delimiter `\n` + three backticks that ends the lazily
captured group of the extraction regex. -/
def stopMark : List Char := '\n' :: tbt

/-- Consume the exact pattern `p` from the front of `cs`, returning the rest. -/
def dropPre : List Char → List Char → Option (List Char)
  | [], cs => some cs
  | _ :: _, [] => none
  | p :: ps, c :: cs => if p = c then dropPre ps cs else none

/-- The lazy group `([\s\S]*?)` followed by `\n` and three backticks: split at
the first occurrence of `stopMark`, returning the characters before it. -/
def findStop : List Char → Option (List Char)
  | [] => none
  | c :: cs =>
    if stopMark.isPrefixOf (c :: cs) then some []
    else (findStop cs).map (c :: ·)

/-- The backtracking choices of greedy `\s*` followed by `\n`: all remainders
`r` with `cs = w ++ '\n' :: r` and `w` whitespace, longest `w` first. -/
def wsNlRem : List Char → List (List Char)
  | [] => []
  | c :: cs =>
    (if isJsWs c then wsNlRem cs else []) ++ (if c = '\n' then [cs] else [])

/-- Match `\s*\n([\s\S]*?)\n` + three backticks against `cs`, returning the
captured group of the first (greediest-`\s*`) alternative that succeeds. -/
def afterTag (cs : List Char) : Option (List Char) :=
  (wsNlRem cs).findSome? findStop

/-- Try the full extraction regex anchored at the start of `cs`: three
backticks, an optional `toon` or `yaml` tag (alternatives tried in regex
order, with backtracking), then `afterTag`.  Returns the captured group. -/
def matchAt (cs : List Char) : Option (List Char) :=
  match dropPre tbt cs with
  | none => none
  | some rest =>
    ((dropPre toonTag rest).bind afterTag) <|>
    ((dropPre yamlTag rest).bind afterTag) <|>
    afterTag rest

/-- Leftmost match of the extraction regex: try every start position from the
left, as JavaScript `String.prototype.match` does without the `g` flag. -/
def firstGroup : List Char → Option (List Char)
  | [] => none
  | c :: cs => matchAt (c :: cs) <|> firstGroup cs

/-- Embedding of `ToonOutputParser.extractToonContent`: take the first code
block captured by the regex when its group is non-empty (the JavaScript code
tests `match && match[1]`, so an empty capture is falsy and falls through),
otherwise the trimmed whole text when non-empty, otherwise `null`. -/
def extractToonContent (text : String) : Option String :=
  match firstGroup text.data with
  | some g =>
    if g ≠ [] then some ⟨jsTrim g⟩
    else
      let trimmed := jsTrim text.data
      if trimmed ≠ [] then some ⟨trimmed⟩ else none
  | none =>
    let trimmed := jsTrim text.data
    if trimmed ≠ [] then some ⟨trimmed⟩ else none

example : extractToonContent "" = none := by decide
example : extractToonContent "name: John" = some "name: John" := by decide
example : extractToonContent "\x60\x60\x60toon\nname: John\n\x60\x60\x60" = some "name: John" := by
  decide
example : extractToonContent "\x60\x60\x60toon\n\n\x60\x60\x60" =
    some "\x60\x60\x60toon\n\n\x60\x60\x60" := by decide
example : extractToonContent "\x60\x60\x60toon\n \n\x60\x60\x60" = some "" := by decide
example : extractToonContent "  a  " = some "a" := by decide

/-- The generic decoded value tree returned by the external TOON decoder:
nested mappings, sequences, and scalars. -/
inductive Value : Type where
  | str (s : String)
  | num (n : Int)
  | bool (b : Bool)
  | null
  | arr (vs : List Value)
  | obj (fields : List (String × Value))

/-- Embedding of `ToonOutputParserOptions`: both fields optional. -/
structure ToonOutputParserOptions where
  delimiter : Option String := none
  strict : Option Bool := none

/-- Embedding of `Required<ToonOutputParserOptions>`, the field stored by the
constructor. -/
structure ResolvedOptions where
  delimiter : String
  strict : Bool
deriving DecidableEq

/-- Embedding of the `ToonOutputParser` constructor body: resolve the option
defaults with `??` (delimiter defaults to a comma, strict defaults to true). -/
def resolveOptions (options : ToonOutputParserOptions) : ResolvedOptions :=
  { delimiter := options.delimiter.getD ",", strict := options.strict.getD true }

/-- The options object built at the `decode` call site inside `parse`; the
source constructs the literal `\x7b strict: this.options.strict \x7d`. -/
structure DecodeCallOptions where
  strict : Bool
deriving DecidableEq

/-- The argument object handed to the external decoder by `parse`. -/
def decodeOptionsOf (r : ResolvedOptions) : DecodeCallOptions :=
  { strict := r.strict }

/-- A Zod validation issue: a path of keys and a human-readable message. -/
structure ZodIssue where
  path : List String
  message : String
deriving DecidableEq

/-- A Zod validation error, the failure signal `schema.parse` raises. -/
structure ZodError where
  issues : List ZodIssue
deriving DecidableEq

/-- What the schema validator can throw: either a `ZodError` or any other
value (`ε`), mirroring the `instanceof z.ZodError` test in `parse`. -/
inductive Thrown (ε : Type) : Type where
  | zod (e : ZodError)
  | other (x : ε)

/-- The distinguishable failure outcomes of `ToonOutputParser.parse`, one per
`throw` site: the extraction failure carries no data, the decode failure
carries the decoder message and the offending substring, the validation
failure carries the dotted path and reason of each issue plus the decoded
tree, and a non-`ZodError` thrown by the validator is rethrown unchanged. -/
inductive ParseError (ε : Type) : Type where
  | extractionFailure
  | decodeFailure (msg : String) (toonContent : String)
  | validationFailure (issues : List (String × String)) (decoded : Value)
  | rethrown (x : ε)

/-- Embedding of `ToonOutputParser.parse`, parametrized by the external
decoder (`decode` from `@toon-format/toon`) and by the schema validator
(`this.schema.parse`).  The control flow mirrors the source: extract, fail if
the result is null or the empty string (the falsiness test `!toonContent`),
decode with only the configured strictness, translate a decoder error into a
decode failure, translate a `ZodError` into a validation failure whose issues
are rendered as dotted path and message, and rethrow anything else. -/
def parse {ε α : Type} (dec : String → DecodeCallOptions → Except String Value)
    (validate : Value → Except (Thrown ε) α)
    (options : ResolvedOptions) (text : String) : Except (ParseError ε) α :=
  match extractToonContent text with
  | none => .error .extractionFailure
  | some toonContent =>
    if toonContent = "" then .error .extractionFailure
    else
      match dec toonContent (decodeOptionsOf options) with
      | .error msg => .error (.decodeFailure msg toonContent)
      | .ok decoded =>
        match validate decoded with
        | .ok v => .ok v
        | .error (.zod e) =>
          .error (.validationFailure
            (e.issues.map fun i => (joinSep "." i.path, i.message)) decoded)
        | .error (.other x) => .error (.rethrown x)

/-- Embedding of the Zod schema values the introspector distinguishes: the
recognized node kinds, the transparent modifier wrappers, and a stand-in
constructor for every unrecognized node kind. -/
inductive ZodSchema : Type where
  | zObject (fields : List (String × ZodSchema))
  | zArray (element : ZodSchema)
  | zString
  | zNumber
  | zBoolean
  | zDate
  | zEnum (values : List String)
  | zOptional (inner : ZodSchema)
  | zNullable (inner : ZodSchema)
  | zDefault (inner : ZodSchema)
  | zUnknown

/-- Embedding of the internal `SchemaShape` type of
`zod-to-toon-instructions.ts`. -/
inductive SchemaShape : Type where
  | object (fields : List (String × SchemaShape))
  | array (element : SchemaShape)
  | string
  | number
  | boolean
  | date
  | enum (values : List String)

mutual

/-- Embedding of `getSchemaShape`: unwrap stacked optional/nullable/default
wrappers, then classify object, array, string, number, boolean, date and
enum nodes, and default every unrecognized kind to the string shape.  The
unwrap `while` loop of the source becomes the three wrapper equations. -/
def getSchemaShape : ZodSchema → SchemaShape
  | .zOptional inner => getSchemaShape inner
  | .zNullable inner => getSchemaShape inner
  | .zDefault inner => getSchemaShape inner
  | .zObject fields => .object (shapeFields fields)
  | .zArray element => .array (getSchemaShape element)
  | .zString => .string
  | .zNumber => .number
  | .zBoolean => .boolean
  | .zDate => .date
  | .zEnum values => .enum values
  | .zUnknown => .string

/-- The `for (const [key, value] of Object.entries(shape))` recursion of
`getSchemaShape` over the declared fields of an object, preserving order. -/
def shapeFields : List (String × ZodSchema) → List (String × SchemaShape)
  | [] => []
  | (key, value) :: rest => (key, getSchemaShape value) :: shapeFields rest

end

/-- The character class `[,:\s"\\]` used by `getExampleValue` to decide
whether an enum literal needs quoting. -/
def needsQuotesChar (c : Char) : Bool :=
  c = ',' || c = ':' || isJsWs c || c = '"' || c = '\\'

/-- Embedding of `getExampleValue`: fixed primary/alternate example text per
primitive kind; for enums the first literal (second when `alternate` and one
exists), quoted exactly when it contains a character of `[,:\s"\\]`; the
`switch` default returns the generic quoted placeholders. -/
def getExampleValue (shape : SchemaShape) (alternate : Bool := false) : String :=
  match shape with
  | .string => if alternate then "\"example2\"" else "\"example1\""
  | .number => if alternate then "42" else "123"
  | .boolean => if alternate then "false" else "true"
  | .date => if alternate then "2025-01-02T00:00:00Z" else "2025-01-01T00:00:00Z"
  | .enum values =>
    match values with
    | [] => "\"value\""
    | v0 :: rest =>
      let value := match rest with
        | [] => v0
        | v1 :: _ => if alternate then v1 else v0
      if value.data.any needsQuotesChar then "\"" ++ value ++ "\"" else value
  | _ => if alternate then "\"value2\"" else "\"value1\""

mutual

/-- Embedding of `generateToonExample`: an object renders one entry per field
joined by newlines; an array of objects renders a `[2]\x7bfields\x7d:` header
followed by two rows of example values (primary, then alternate); an array of
primitives renders `[2]: v1,v2`; anything else renders its example value. -/
def generateToonExample (shape : SchemaShape) (indent : Nat := 0) : String :=
  let spaces := strRepeat "  " indent
  match shape with
  | .object fields => joinSep "\n" (exampleLines fields indent)
  | .array element =>
    match element with
    | .object efields =>
      let fieldNames := efields.map (·.1)
      let header := "[2]\x7b" ++ joinSep "," fieldNames ++ "\x7d:"
      let row1 := joinSep "," (efields.map fun kv => getExampleValue kv.2)
      let row2 := joinSep "," (efields.map fun kv => getExampleValue kv.2 true)
      header ++ "\n" ++ spaces ++ "  " ++ row1 ++ "\n" ++ spaces ++ "  " ++ row2
    | _ =>
      "[2]: " ++ getExampleValue element ++ "," ++ getExampleValue element true
  | _ => getExampleValue shape

/-- The per-field loop of `generateToonExample` on an object shape: an array
field renders inline after its key, a nested object field renders its key and
then its body one level deeper, and a primitive field renders inline. -/
def exampleLines : List (String × SchemaShape) → Nat → List String
  | [], _ => []
  | (key, fieldShape) :: rest, indent =>
    let spaces := strRepeat "  " indent
    (match fieldShape with
     | .array _ => [spaces ++ key ++ generateToonExample fieldShape indent]
     | .object _ =>
       [spaces ++ key ++ ":", generateToonExample fieldShape (indent + 1)]
     | _ => [spaces ++ key ++ ": " ++ getExampleValue fieldShape]) ++
    exampleLines rest indent

end

/-- An enum constraint record collected for the Field Constraints section. -/
structure EnumConstraint where
  field : String
  values : List String
deriving DecidableEq

mutual

/-- Embedding of `collectEnumConstraints`: walk an object shape field by
field; record an enum field under its dotted path, recurse into an object
field, and for an array field record an enum element under the path plus
`[]` or recurse into an object element with `[]` appended; non-object shapes
at the top contribute nothing. -/
def collectEnumConstraints (shape : SchemaShape) (pfx : String := "") :
    List EnumConstraint :=
  match shape with
  | .object fields => collectFromFields fields pfx
  | _ => []
termination_by sizeOf shape

/-- The field loop of `collectEnumConstraints`. -/
def collectFromFields : List (String × SchemaShape) → String → List EnumConstraint
  | [], _ => []
  | (key, fieldShape) :: rest, pfx =>
    let fieldPath := if pfx ≠ "" then pfx ++ "." ++ key else key
    (match fieldShape with
     | .enum values => [{ field := fieldPath, values := values }]
     | .object ofields => collectEnumConstraints (.object ofields) fieldPath
     | .array element =>
       match element with
       | .enum values => [{ field := fieldPath ++ "[]", values := values }]
       | .object ofields =>
         collectEnumConstraints (.object ofields) (fieldPath ++ "[]")
       | _ => []
     | _ => []) ++ collectFromFields rest pfx
termination_by fs _ => sizeOf fs

end

/-- The optional Field Constraints block of `zodSchemaToToonInstructions`:
empty when no enum constraint was collected, otherwise a header line and one
`- <path> must be one of: v1, v2` line per record. -/
def constraintsText (constraints : List EnumConstraint) : String :=
  if constraints.length > 0 then
    "\n\nField Constraints:\n" ++
      joinSep "\n" (constraints.map fun c =>
        "- " ++ c.field ++ " must be one of: " ++ joinSep ", " c.values)
  else ""

/-- The fixed rule text that opens the synthesized instructions. -/
def instructionsRules : String :=
  "Please respond in TOON format (Token-Oriented Object Notation).\n\n" ++
  "TOON Format Rules:\n" ++
  "- Use 2-space indentation for nested objects\n" ++
  "- Arrays use the format: arrayName[count]\x7bfield1,field2,...\x7d: " ++
  "where count is the actual number of items (e.g., [3] for 3 items)\n" ++
  "- Replace \x27count\x27 with the actual number of rows in your data\n" ++
  "- Fields are comma-separated (or tab-separated if specified)\n" ++
  "- Strings with commas, quotes, or newlines must be quoted and escaped"

/-- The fixed text between the constraints block and the fenced example. -/
def instructionsMid : String :=
  "\n\nExpected structure:\n\x60\x60\x60toon\n"

/-- The fixed closing directive of the synthesized instructions. -/
def instructionsTail : String :=
  "\n\x60\x60\x60\n\nRespond ONLY with the TOON-formatted data inside a code block."

/-- Embedding of `zodSchemaToToonInstructions`: introspect the schema, build
the example and the enum-constraint block, and splice them into the fixed
instruction template. -/
def zodSchemaToToonInstructions (schema : ZodSchema) : String :=
  let shape := getSchemaShape schema
  let exampleText := generateToonExample shape
  let ct := constraintsText (collectEnumConstraints shape)
  instructionsRules ++ ct ++ instructionsMid ++ exampleText ++ instructionsTail

/-- Embedding of `ToonOutputParser.getFormatInstructions`. -/
def getFormatInstructions (schema : ZodSchema) : String :=
  zodSchemaToToonInstructions schema

/-- Split a character list at every newline, as line-oriented decoding does. -/
def splitNl : List Char → List (List Char)
  | [] => [[]]
  | '\n' :: cs => [] :: splitNl cs
  | c :: cs =>
    match splitNl cs with
    | [] => [[c]]
    | l :: ls => (c :: l) :: ls

/-- Split a scalar line at the first `: ` into key and value, when present. -/
def splitKV : List Char → Option (List Char × List Char)
  | [] => none
  | ':' :: ' ' :: rest => some ([], rest)
  | c :: rest => (splitKV rest).map (fun kv => (c :: kv.1, kv.2))

/-- Does the string consist of ASCII digits, with an optional leading minus? -/
def isIntString (s : String) : Bool :=
  match s.data with
  | [] => false
  | '-' :: rest => !rest.isEmpty && rest.all (·.isDigit)
  | l => l.all (·.isDigit)

/-- Numeric value of a digit string (with an optional leading minus). -/
def strToInt (s : String) : Int :=
  match s.data with
  | '-' :: rest => -(rest.foldl (fun n c => 10 * n + (c.toNat - '0'.toNat)) 0 : Nat)
  | l => (l.foldl (fun n c => 10 * n + (c.toNat - '0'.toNat)) 0 : Nat)

/-- A decoded scalar: a run of digits decodes as a number, anything else as a
string scalar. -/
def scalarOf (s : String) : Value :=
  if isIntString s then .num (strToInt s) else .str s

/-- Modelled from the spec: the external TOON decoder (`decode` of
`@toon-format/toon`, the supplied primitive of section 6 that is not part of
this repository), restricted to the documents needed here: a sequence of
scalar `key: value` lines decodes to a mapping, and a single line without a
key decodes to a bare scalar, with digit runs read as numbers and everything
else as string scalars. -/
def specDecode (text : String) (_opts : DecodeCallOptions) : Except String Value :=
  let lines := splitNl text.data
  match lines.mapM splitKV with
  | some kvs => .ok (.obj (kvs.map fun kv => (⟨kv.1⟩, scalarOf ⟨kv.2⟩)))
  | none =>
    match lines with
    | [l] => .ok (scalarOf ⟨l⟩)
    | _ => .error "Invalid TOON document"

/-- Modelled from the spec: the external Zod validator (section 6 schema
boundary) for the schema of one required number field `age`: it accepts a
mapping whose `age` entry is a number and raises a `ZodError` carrying the
field path and a reason otherwise. -/
def validateAgeNumber : Value → Except (Thrown Unit) Int
  | .obj fields =>
    match fields.lookup "age" with
    | some (.num n) => .ok n
    | some _ =>
      .error (.zod ⟨[⟨["age"], "Expected number, received string"⟩]⟩)
    | none => .error (.zod ⟨[⟨["age"], "Required"⟩]⟩)
  | _ => .error (.zod ⟨[⟨[], "Expected object, received string"⟩]⟩)

example :
    specDecode "age: not-a-number" ⟨true⟩ =
      .ok (.obj [("age", .str "not-a-number")]) := by rfl

example :
    generateToonExample
      (.object [("users", .array (.object [("id", .number), ("name", .string)]))]) =
    "users[2]\x7bid,name\x7d:\n  123,\"example1\"\n  42,\"example2\"" := by rfl

example :
    collectEnumConstraints
      (.object [("status", .enum ["active", "inactive"]),
                ("tags", .array (.enum ["a 1", "b"]))]) =
    [⟨"status", ["active", "inactive"]⟩, ⟨"tags[]", ["a 1", "b"]⟩] := by
  simp [collectEnumConstraints, collectFromFields]

example :
    collectEnumConstraints (.object [("a", .array (.array (.enum ["x"])))]) = [] := by
  simp [collectEnumConstraints, collectFromFields]

example : getExampleValue (.enum ["a 1", "b"]) = "\"a 1\"" := by rfl
example : getExampleValue (.enum ["a 1", "b"]) true = "b" := by rfl

/-- The decode-then-validate tail of `parse` (source lines after the
extraction guard), as a pipeline of its own: decode the given content with
the configured strictness only and translate the failure signals. -/
def decodeAndValidate {ε α : Type}
    (dec : String → DecodeCallOptions → Except String Value)
    (validate : Value → Except (Thrown ε) α)
    (options : ResolvedOptions) (toonContent : String) : Except (ParseError ε) α :=
  match dec toonContent (decodeOptionsOf options) with
  | .error msg => .error (.decodeFailure msg toonContent)
  | .ok decoded =>
    match validate decoded with
    | .ok v => .ok v
    | .error (.zod e) =>
      .error (.validationFailure
        (e.issues.map fun i => (joinSep "." i.path, i.message)) decoded)
    | .error (.other x) => .error (.rethrown x)

/-- After a successful non-empty extraction, `parse` is exactly the
decode-then-validate pipeline applied to the extracted substring. -/
theorem parse_after_extract {ε α : Type}
    (dec : String → DecodeCallOptions → Except String Value)
    (validate : Value → Except (Thrown ε) α)
    (options : ResolvedOptions) (text toonContent : String)
    (hex : extractToonContent text = some toonContent) (hne : toonContent ≠ "") :
    parse dec validate options text = decodeAndValidate dec validate options toonContent := by
  unfold parse decodeAndValidate
  rw [hex]
  simp [hne]

/-- When extraction returns nothing, or returns the empty string, `parse`
fails with the extraction failure. -/
theorem parse_extract_failed {ε α : Type}
    (dec : String → DecodeCallOptions → Except String Value)
    (validate : Value → Except (Thrown ε) α)
    (options : ResolvedOptions) (text : String)
    (hex : extractToonContent text = none ∨ extractToonContent text = some "") :
    parse dec validate options text = .error .extractionFailure := by
  unfold parse
  rcases hex with h | h <;> simp [h]

/-- If every character of `cs` is whitespace, the extraction regex cannot
match anywhere in `cs` (a match needs a backtick, which is not whitespace). -/
theorem firstGroup_eq_none_of_all_ws (cs : List Char)
    (h : ∀ c ∈ cs, isJsWs c) : firstGroup cs = none := by
  induction cs with
  | nil => rfl
  | cons c cs ih =>
    have hc : isJsWs c := h c (List.mem_cons_self c cs)
    have hne : ('\x60' = c) = False := by
      by_contra hcontra
      simp only [eq_iff_iff, iff_false] at hcontra
      push_neg at hcontra
      rw [← hcontra] at hc
      exact absurd hc (by decide)
    have hm : matchAt (c :: cs) = none := by
      simp [matchAt, tbt, dropPre, hne]
    simp [firstGroup, hm, ih fun x hx => h x (List.mem_cons_of_mem c hx)]

/-- A character list with empty JavaScript trim is all whitespace. -/
theorem all_ws_of_jsTrim_eq_nil (cs : List Char) (h : jsTrim cs = []) :
    ∀ c ∈ cs, isJsWs c := by
  unfold jsTrim rtrimWs ltrimWs at h
  have h2 : List.dropWhile isJsWs (List.dropWhile isJsWs cs).reverse = [] := by
    by_contra hne
    exact hne (by simpa using congrArg List.reverse h)
  have hrev : ∀ c ∈ (List.dropWhile isJsWs cs).reverse, isJsWs c :=
    List.dropWhile_eq_nil_iff.mp h2
  have hdrop : ∀ c ∈ List.dropWhile isJsWs cs, isJsWs c := by
    intro c hc
    exact hrev c (List.mem_reverse.mpr hc)
  intro c hc
  rw [← List.takeWhile_append_dropWhile (p := isJsWs) (l := cs)] at hc
  rcases List.mem_append.mp hc with h | h
  · exact List.mem_takeWhile_imp h
  · exact hdrop c h

/-- C2: against every schema and every decoder, `parse` on the empty string —
and on any input whose trimmed text is empty, which therefore contains no
fenced block — fails with the extraction failure: the extractor returns none
and the resulting error is the bare `extractionFailure`, which carries no
data, rather than a decode or validation failure. -/
theorem c2_empty_input_extraction_failure {ε α : Type}
    (dec : String → DecodeCallOptions → Except String Value)
    (validate : Value → Except (Thrown ε) α)
    (options : ResolvedOptions) (text : String)
    (h : jsTrim text.data = []) :
    extractToonContent text = none ∧
    parse dec validate options text = .error .extractionFailure := by
  have hws := all_ws_of_jsTrim_eq_nil text.data h
  have hfg := firstGroup_eq_none_of_all_ws text.data hws
  have hex : extractToonContent text = none := by
    unfold extractToonContent
    rw [hfg]
    simp [h]
  exact ⟨hex, parse_extract_failed _ _ _ _ (Or.inl hex)⟩

/-- C2 witness: the empty string has empty trim, its extraction returns none,
and `parse` on it fails with the extraction failure. -/
theorem c2_empty_input_extraction_failure_witness :
    jsTrim ("" : String).data = [] ∧
    (extractToonContent "" = none ∧
     parse (fun _ _ => .ok .null) (fun _ : Value => .ok (0 : Nat))
       (resolveOptions {}) "" = .error (ParseError.extractionFailure (ε := Unit))) :=
  ⟨rfl, c2_empty_input_extraction_failure _ _ _ "" rfl⟩

/-- C4: against the schema of one number field `age`, the input
`age: not-a-number` decodes as a mapping with a string scalar, and `parse`
fails with the validation failure carrying the dotted field path, the reason
and the decoded tree — not with the decode failure. -/
theorem c4_validation_failure_not_decode :
    parse specDecode validateAgeNumber (resolveOptions {}) "age: not-a-number" =
      .error (.validationFailure [("age", "Expected number, received string")]
        (.obj [("age", .str "not-a-number")])) := by
  rfl

/-- C6: `getSchemaShape` is total by construction (it is accepted as a
terminating function over every schema value), strips each of the three
modifier wrappers transparently — so any stack of them, such as
`optional(nullable(string))`, classifies as the bare inner shape — and maps
the stand-in for every unrecognized node kind to the string shape. -/
theorem c6_getSchemaShape_total (s : ZodSchema) :
    getSchemaShape (.zOptional s) = getSchemaShape s ∧
    getSchemaShape (.zNullable s) = getSchemaShape s ∧
    getSchemaShape (.zDefault s) = getSchemaShape s ∧
    getSchemaShape (.zOptional (.zNullable .zString)) = .string ∧
    getSchemaShape .zUnknown = .string :=
  ⟨rfl, rfl, rfl, rfl, rfl⟩

/-- C7 counterexample: the enum literal `a\b` contains no comma, no colon, no
whitespace and no quote character, yet `getExampleValue` wraps it in quotes —
the source quoting class `[,:\s"\\]` also fires on a backslash (and on a
comma regardless of the configured delimiter). -/
theorem c7_enum_quoting_counterexample :
    getExampleValue (.enum ["a\\b"]) = "\"a\\b\"" ∧
    ("a\\b".data.any fun c => c = ',' || c = ':' || isJsWs c || c = '"') = false := by
  exact ⟨rfl, by decide⟩

/-- C7 amended: for a non-empty enum value list, `getExampleValue` returns
the first literal (the second when `alternate` is set and a second exists),
wrapped in quote characters exactly when the literal contains a comma, a
colon, whitespace, a quote character or a backslash. -/
theorem c7_enum_example_value (v0 : String) (rest : List String) (alternate : Bool) :
    getExampleValue (.enum (v0 :: rest)) alternate =
      (let value := if alternate && !rest.isEmpty then rest.headD v0 else v0
       if value.data.any needsQuotesChar then "\"" ++ value ++ "\"" else value) := by
  cases rest <;> cases alternate <;> simp [getExampleValue]

/-- C1 counterexample: two parser configurations differing only in the
configured delimiter are indistinguishable at the decode call site — the
source passes the object `\x7b strict: this.options.strict \x7d` and nothing
else, so no reading of what the decoder receives can recover the configured
delimiter, contradicting that the delimiter is passed to the decoder. -/
theorem c1_delimiter_not_passed_counterexample :
    decodeOptionsOf ⟨",", true⟩ = decodeOptionsOf ⟨"\t", true⟩ ∧
    ¬∃ g : DecodeCallOptions → String,
        ∀ r : ResolvedOptions, g (decodeOptionsOf r) = r.delimiter := by
  refine ⟨rfl, ?_⟩
  rintro ⟨g, hg⟩
  have h1 : g (decodeOptionsOf ⟨"\t", true⟩) = "," := hg ⟨",", true⟩
  have h2 : g (decodeOptionsOf ⟨"\t", true⟩) = "\t" := hg ⟨"\t", true⟩
  have : ("," : String) = "\t" := h1.symm.trans h2
  exact absurd this (by decide)

/-- C1 amended: the constructor resolves the delimiter to a comma and
strictness to true when omitted; on every successful non-empty extraction,
`parse` invokes the external decoder on the extracted substring passing the
configured strictness (and only that), and the verdict of the decoder is used
as-is — a decoder error becomes the decode failure for that substring, and a
decoded value goes to validation untouched, so the component adds no decoding
logic of its own.  The configured delimiter is stored but not forwarded. -/
theorem c1_decode_delegation {ε α : Type}
    (dec : String → DecodeCallOptions → Except String Value)
    (validate : Value → Except (Thrown ε) α)
    (options : ToonOutputParserOptions) (text toonContent : String)
    (hex : extractToonContent text = some toonContent) (hne : toonContent ≠ "") :
    resolveOptions {} = ⟨",", true⟩ ∧
    (∀ msg, dec toonContent ⟨(resolveOptions options).strict⟩ = .error msg →
      parse dec validate (resolveOptions options) text =
        .error (.decodeFailure msg toonContent)) ∧
    (∀ decoded v, dec toonContent ⟨(resolveOptions options).strict⟩ = .ok decoded →
      validate decoded = .ok v →
      parse dec validate (resolveOptions options) text = .ok v) := by
  refine ⟨rfl, ?_, ?_⟩
  · intro msg hmsg
    rw [parse_after_extract dec validate _ text toonContent hex hne]
    unfold decodeAndValidate decodeOptionsOf
    rw [hmsg]
  · intro decoded v hdec hval
    rw [parse_after_extract dec validate _ text toonContent hex hne]
    unfold decodeAndValidate decodeOptionsOf
    rw [hdec]
    simp [hval]

/-- C1 witness: a concrete run through the delegation theorem — extraction of
a plain-text input succeeds, a decoder that accepts it drives `parse` to the
verdict of the validator. -/
theorem c1_decode_delegation_witness :
    extractToonContent "k: v" = some "k: v" ∧ ("k: v" : String) ≠ "" ∧
    parse (fun _ _ => .ok .null)
      (fun _ : Value => (.ok 37 : Except (Thrown Unit) Nat))
      (resolveOptions {}) "k: v" = .ok 37 :=
  ⟨by decide, by decide,
    (c1_decode_delegation (fun _ _ => .ok .null)
      (fun _ : Value => (.ok 37 : Except (Thrown Unit) Nat))
      {} "k: v" "k: v" (by decide) (by decide)).2.2 .null 37 rfl rfl⟩

/-- C10: when the validator throws a value that is not a `ZodError` signal,
`parse` rethrows that value unchanged — the result is the rethrown value
itself, not a validation failure, so it carries no path-qualified issue list
and no decoded-tree payload. -/
theorem c10_non_zod_error_rethrown {ε α : Type}
    (dec : String → DecodeCallOptions → Except String Value)
    (validate : Value → Except (Thrown ε) α)
    (options : ResolvedOptions) (text toonContent : String) (decoded : Value) (x : ε)
    (hex : extractToonContent text = some toonContent) (hne : toonContent ≠ "")
    (hdec : dec toonContent (decodeOptionsOf options) = .ok decoded)
    (hval : validate decoded = .error (.other x)) :
    parse dec validate options text = .error (.rethrown x) ∧
    ∀ issues d, parse dec validate options text ≠
      .error (.validationFailure issues d) := by
  have h : parse dec validate options text = .error (.rethrown x) := by
    rw [parse_after_extract dec validate options text toonContent hex hne]
    unfold decodeAndValidate
    rw [hdec]
    simp [hval]
  exact ⟨h, fun issues d => by rw [h]; simp⟩

/-- C9 counterexample: for an input that is exactly a fenced block whose
interior is one whitespace-only line, the regex group is non-empty, so the
extractor returns its trim — the empty string, which is the trimmed empty
interior — and `parse` fails with the extraction failure instead of handing
the whole trimmed input to the decoder. -/
theorem c9_ws_interior_counterexample :
    extractToonContent "\x60\x60\x60toon\n \n\x60\x60\x60" = some "" ∧
    parse (fun _ _ => .ok .null)
      (fun _ : Value => (.ok 0 : Except (Thrown Unit) Nat))
      (resolveOptions {}) "\x60\x60\x60toon\n \n\x60\x60\x60" =
      .error .extractionFailure :=
  ⟨by decide, by rfl⟩

/-- C9 amended: for an input that is exactly a fenced block with an empty
interior, the regex group is empty, hence falsy under the source
`match && match[1]` test; the extractor falls through to the whole trimmed
text — fence markers included — and `parse` hands exactly that string to the
decode-then-validate pipeline.  A whitespace-only (but non-empty) interior
instead extracts to the empty string, which `parse` rejects as an extraction
failure. -/
theorem c9_empty_interior_whole_text {ε α : Type}
    (dec : String → DecodeCallOptions → Except String Value)
    (validate : Value → Except (Thrown ε) α) (options : ResolvedOptions) :
    extractToonContent "\x60\x60\x60toon\n\n\x60\x60\x60" =
      some "\x60\x60\x60toon\n\n\x60\x60\x60" ∧
    parse dec validate options "\x60\x60\x60toon\n\n\x60\x60\x60" =
      decodeAndValidate dec validate options "\x60\x60\x60toon\n\n\x60\x60\x60" ∧
    extractToonContent "\x60\x60\x60toon\n \n\x60\x60\x60" = some "" ∧
    parse dec validate options "\x60\x60\x60toon\n \n\x60\x60\x60" =
      .error .extractionFailure := by
  refine ⟨by decide, ?_, by decide, ?_⟩
  · exact parse_after_extract dec validate options _ _ (by decide) (by decide)
  · exact parse_extract_failed dec validate options _ (Or.inr (by decide))

/-- Joining a list that contains `x` produces a string in which `x` occurs
contiguously. -/
theorem joinSep_contains (sep x : String) (l1 l2 : List String) :
    ∃ a b, joinSep sep (l1 ++ x :: l2) = a ++ x ++ b := by
  induction l1 with
  | nil =>
    cases l2 with
    | nil => exact ⟨"", "", by simp [joinSep]⟩
    | cons y ys =>
      refine ⟨"", sep ++ joinSep sep (y :: ys), ?_⟩
      simp [joinSep, String.append_assoc]
  | cons h tl ih =>
    obtain ⟨a, b, hab⟩ := ih
    refine ⟨h ++ sep ++ a, b, ?_⟩
    have hcons : ∃ y ys, tl ++ x :: l2 = y :: ys := by
      cases tl with
      | nil => exact ⟨x, l2, rfl⟩
      | cons t ts => exact ⟨t, ts ++ x :: l2, by simp⟩
    obtain ⟨y, ys, hy⟩ := hcons
    calc joinSep sep ((h :: tl) ++ x :: l2)
        = joinSep sep (h :: (tl ++ x :: l2)) := by simp
      _ = h ++ sep ++ joinSep sep (tl ++ x :: l2) := by rw [hy]; rfl
      _ = h ++ sep ++ (a ++ x ++ b) := by rw [hab]
      _ = h ++ sep ++ a ++ x ++ b := by simp [String.append_assoc]

/-- The per-field example lines of an object distribute over list append. -/
theorem exampleLines_append (l1 l2 : List (String × SchemaShape)) (indent : Nat) :
    exampleLines (l1 ++ l2) indent = exampleLines l1 indent ++ exampleLines l2 indent := by
  induction l1 with
  | nil => simp [exampleLines]
  | cons h tl ih =>
    obtain ⟨key, fieldShape⟩ := h
    simp only [List.cons_append, exampleLines, List.append_eq, ih, List.append_assoc]

/-- C3: for every object schema one of whose fields is an array of objects
whose element object declares exactly the fields `f1` and `f2` (in that
order), the synthesized instructions contain the substring `[2]\x7bf1,f2\x7d:`
followed by exactly two example rows — the primary-value row and the
alternate-value row, each indented under the header. -/
theorem c3_tabular_header_two_rows (schema : ZodSchema)
    (fields pre post : List (String × SchemaShape)) (k f1 f2 : String)
    (s1 s2 : SchemaShape)
    (hshape : getSchemaShape schema = .object fields)
    (hfields : fields = pre ++ (k, .array (.object [(f1, s1), (f2, s2)])) :: post) :
    ∃ a b, zodSchemaToToonInstructions schema =
      a ++ ("[2]\x7b" ++ f1 ++ "," ++ f2 ++ "\x7d:" ++ "\n" ++
            "  " ++ getExampleValue s1 ++ "," ++ getExampleValue s2 ++ "\n" ++
            "  " ++ getExampleValue s1 true ++ "," ++ getExampleValue s2 true) ++ b := by
  have hline :
      exampleLines [(k, SchemaShape.array (.object [(f1, s1), (f2, s2)]))] 0 =
        [k ++ ("[2]\x7b" ++ f1 ++ "," ++ f2 ++ "\x7d:" ++ "\n" ++
          "  " ++ getExampleValue s1 ++ "," ++ getExampleValue s2 ++ "\n" ++
          "  " ++ getExampleValue s1 true ++ "," ++ getExampleValue s2 true)] := by
    simp [exampleLines, generateToonExample, joinSep, strRepeat, String.append_assoc]
  have hsplit : exampleLines fields 0 =
      exampleLines pre 0 ++
        (k ++ ("[2]\x7b" ++ f1 ++ "," ++ f2 ++ "\x7d:" ++ "\n" ++
          "  " ++ getExampleValue s1 ++ "," ++ getExampleValue s2 ++ "\n" ++
          "  " ++ getExampleValue s1 true ++ "," ++ getExampleValue s2 true)) ::
        exampleLines post 0 := by
    rw [hfields, exampleLines_append]
    congr 1
    rw [show ((k, SchemaShape.array (.object [(f1, s1), (f2, s2)])) :: post) =
        [(k, SchemaShape.array (.object [(f1, s1), (f2, s2)]))] ++ post from rfl,
      exampleLines_append, hline]
    simp
  obtain ⟨a, b, hab⟩ := joinSep_contains "\n"
    (k ++ ("[2]\x7b" ++ f1 ++ "," ++ f2 ++ "\x7d:" ++ "\n" ++
      "  " ++ getExampleValue s1 ++ "," ++ getExampleValue s2 ++ "\n" ++
      "  " ++ getExampleValue s1 true ++ "," ++ getExampleValue s2 true))
    (exampleLines pre 0) (exampleLines post 0)
  refine ⟨instructionsRules ++ constraintsText (collectEnumConstraints (.object fields)) ++
    instructionsMid ++ a ++ k, b ++ instructionsTail, ?_⟩
  unfold zodSchemaToToonInstructions
  rw [hshape]
  show instructionsRules ++ constraintsText (collectEnumConstraints (.object fields)) ++
      instructionsMid ++ generateToonExample (.object fields) ++ instructionsTail = _
  rw [show generateToonExample (.object fields) = joinSep "\n" (exampleLines fields 0)
      from rfl, hsplit, hab]
  simp [String.append_assoc]

/-- C3 witness: the header and the two example rows for a concrete schema of
one array-of-objects field with element fields `id` and `name`. -/
theorem c3_tabular_header_two_rows_witness :
    ∃ a b, zodSchemaToToonInstructions
        (.zObject [("users", .zArray (.zObject [("id", .zNumber), ("name", .zString)]))]) =
      a ++ ("[2]\x7b" ++ "id" ++ "," ++ "name" ++ "\x7d:" ++ "\n" ++
            "  " ++ getExampleValue .number ++ "," ++ getExampleValue .string ++ "\n" ++
            "  " ++ getExampleValue .number true ++ "," ++ getExampleValue .string true) ++ b :=
  c3_tabular_header_two_rows
    (.zObject [("users", .zArray (.zObject [("id", .zNumber), ("name", .zString)]))])
    [("users", .array (.object [("id", .number), ("name", .string)]))] [] []
    "users" "id" "name" .number .string rfl rfl

mutual

/-- The reading the claim takes of the collector contract: does an enum node occur
anywhere in a shape tree? -/
def enumOccurs : SchemaShape → Bool
  | .enum _ => true
  | .object fields => enumOccursFields fields
  | .array element => enumOccurs element
  | _ => false

/-- Does an enum node occur in any field of the list? -/
def enumOccursFields : List (String × SchemaShape) → Bool
  | [] => false
  | (_, s) :: rest => enumOccurs s || enumOccursFields rest

end

/-- C8 counterexample: the shape of one field `a` holding an array of arrays
of enums contains an enum node, yet the collector records nothing for it (the
array case only looks at enum or object elements), so the instructions carry
no Field Constraints section. -/
theorem c8_nested_array_enum_counterexample :
    enumOccurs (.object [("a", .array (.array (.enum ["x", "y"])))]) = true ∧
    collectEnumConstraints (.object [("a", .array (.array (.enum ["x", "y"])))]) = [] ∧
    constraintsText (collectEnumConstraints
      (.object [("a", .array (.array (.enum ["x", "y"])))])) = "" := by
  have hc : collectEnumConstraints (.object [("a", .array (.array (.enum ["x", "y"])))]) = [] := by
    simp [collectEnumConstraints, collectFromFields]
  exact ⟨by simp [enumOccurs, enumOccursFields], hc, by rw [hc]; rfl⟩

/-- The join of the constraint lines never erases a record: any collected
record occurs verbatim inside the rendered Field Constraints block. -/
theorem constraintsText_member (cs : List EnumConstraint) (c : EnumConstraint)
    (hmem : c ∈ cs) :
    ∃ x y, constraintsText cs =
      x ++ ("- " ++ c.field ++ " must be one of: " ++ joinSep ", " c.values) ++ y := by
  obtain ⟨l1, l2, hsplit⟩ := List.append_of_mem hmem
  obtain ⟨a, b, hab⟩ := joinSep_contains "\n"
    ("- " ++ c.field ++ " must be one of: " ++ joinSep ", " c.values)
    (l1.map fun c => "- " ++ c.field ++ " must be one of: " ++ joinSep ", " c.values)
    (l2.map fun c => "- " ++ c.field ++ " must be one of: " ++ joinSep ", " c.values)
  refine ⟨"\n\nField Constraints:\n" ++ a, b, ?_⟩
  have hlen : cs.length > 0 := by rw [hsplit]; simp
  unfold constraintsText
  rw [if_pos hlen, hsplit]
  simp only [List.map_append, List.map_cons] at hab ⊢
  rw [hab]
  simp [String.append_assoc]

/-- C8 amended: the collector walks object fields only — an enum field is
recorded under its dotted path, an object field is recursed into, and an
array field records an enum element under the path plus `[]` or recurses
into an object element with `[]` appended, while any other array element
(such as a nested array) and any non-object shape at the top contribute
nothing.  The Field Constraints block is empty exactly when no record was
collected, and every collected record is rendered inside the synthesized
instructions as `<path> must be one of: v1, v2, ...`. -/
theorem c8_enum_constraint_records :
    (∀ pfx key vs rest, collectFromFields ((key, .enum vs) :: rest) pfx =
      ⟨if pfx ≠ "" then pfx ++ "." ++ key else key, vs⟩ :: collectFromFields rest pfx) ∧
    (∀ pfx key vs rest, collectFromFields ((key, .array (.enum vs)) :: rest) pfx =
      ⟨(if pfx ≠ "" then pfx ++ "." ++ key else key) ++ "[]", vs⟩ ::
        collectFromFields rest pfx) ∧
    (∀ pfx key ofs rest, collectFromFields ((key, .object ofs) :: rest) pfx =
      collectFromFields ofs (if pfx ≠ "" then pfx ++ "." ++ key else key) ++
        collectFromFields rest pfx) ∧
    (∀ pfx key ofs rest, collectFromFields ((key, .array (.object ofs)) :: rest) pfx =
      collectFromFields ofs ((if pfx ≠ "" then pfx ++ "." ++ key else key) ++ "[]") ++
        collectFromFields rest pfx) ∧
    (∀ pfx key e rest, collectFromFields ((key, .array (.array e)) :: rest) pfx =
      collectFromFields rest pfx) ∧
    (∀ cs, constraintsText cs = "" ↔ cs = []) ∧
    (∀ schema c, c ∈ collectEnumConstraints (getSchemaShape schema) →
      ∃ x y, zodSchemaToToonInstructions schema =
        x ++ ("- " ++ c.field ++ " must be one of: " ++ joinSep ", " c.values) ++ y) := by
  refine ⟨?_, ?_, ?_, ?_, ?_, ?_, ?_⟩
  · intro pfx key vs rest
    simp [collectFromFields, collectEnumConstraints]
  · intro pfx key vs rest
    simp [collectFromFields, collectEnumConstraints]
  · intro pfx key ofs rest
    simp [collectFromFields, collectEnumConstraints]
  · intro pfx key ofs rest
    simp [collectFromFields, collectEnumConstraints]
  · intro pfx key e rest
    simp [collectFromFields, collectEnumConstraints]
  · intro cs
    constructor
    · intro h
      by_contra hne
      have hlen : cs.length > 0 := List.length_pos.mpr hne
      unfold constraintsText at h
      rw [if_pos hlen] at h
      have hdata := congrArg String.data h
      rw [String.data_append] at hdata
      simp only [String.data] at hdata
      exact absurd (List.append_eq_nil.mp hdata).1 (by decide)
    · intro h
      rw [h]
      rfl
  · intro schema c hmem
    obtain ⟨x, y, hxy⟩ :=
      constraintsText_member (collectEnumConstraints (getSchemaShape schema)) c hmem
    refine ⟨instructionsRules ++ x,
      y ++ (instructionsMid ++ generateToonExample (getSchemaShape schema) ++
        instructionsTail), ?_⟩
    show instructionsRules ++ constraintsText (collectEnumConstraints (getSchemaShape schema)) ++
        instructionsMid ++ generateToonExample (getSchemaShape schema) ++ instructionsTail = _
    rw [hxy]
    simp [String.append_assoc]

/-- C8 witness: a concrete schema with a top-level enum field and an enum
array field yields both record shapes, and the first record is rendered in
the instructions. -/
theorem c8_enum_constraint_records_witness :
    ∃ x y, zodSchemaToToonInstructions
        (.zObject [("status", .zEnum ["active", "inactive"]),
                   ("tags", .zArray (.zEnum ["a", "b"]))]) =
      x ++ ("- " ++ "status" ++ " must be one of: " ++ joinSep ", " ["active", "inactive"]) ++ y :=
  c8_enum_constraint_records.2.2.2.2.2.2
    (.zObject [("status", .zEnum ["active", "inactive"]),
               ("tags", .zArray (.zEnum ["a", "b"]))])
    ⟨"status", ["active", "inactive"]⟩
    (by simp [getSchemaShape, shapeFields, collectEnumConstraints, collectFromFields])

/-- If three backticks occur nowhere in `u`, they are not a front of
`u ++ stopMark` either: the appended stop starts with a newline. -/
theorem tbt_not_front_of_append_stop (u : List Char) (h : infixB tbt u = false) :
    tbt.isPrefixOf (u ++ stopMark) = false := by
  match u with
  | [] => decide
  | [a] => simp [tbt, stopMark, List.isPrefixOf]
  | [a, b] => simp [tbt, stopMark, List.isPrefixOf]
  | a :: b :: c :: rest =>
    have h1 : tbt.isPrefixOf (a :: b :: c :: rest) = false := by
      simp only [infixB, Bool.or_eq_false_iff] at h
      exact h.1
    simp only [tbt, List.isPrefixOf, List.cons_append] at h1 ⊢
    simpa using h1

/-- When three backticks occur nowhere in `u`, the lazy group search on
`u ++ stopMark` stops exactly at the appended stop and captures `u`. -/
theorem findStop_append_stop (u : List Char) (h : infixB tbt u = false) :
    findStop (u ++ stopMark) = some u := by
  induction u with
  | nil => decide
  | cons c u' ih =>
    simp only [infixB, Bool.or_eq_false_iff] at h
    have h2 := tbt_not_front_of_append_stop u' h.2
    have h3 : stopMark.isPrefixOf (c :: (u' ++ stopMark)) = false := by
      have h2' : tbt.isPrefixOf (u' ++ ('\n' :: tbt)) = false := h2
      simp [stopMark, List.isPrefixOf, h2']
    show findStop (c :: (u' ++ stopMark)) = some (c :: u')
    unfold findStop
    simp [h3, ih h.2]

/-- An infix of the right part of an append is an infix of the whole. -/
theorem infixB_of_append (p l r : List Char) (h : infixB p (l ++ r) = false) :
    infixB p r = false := by
  induction l with
  | nil => exact h
  | cons c l' ih =>
    simp only [List.cons_append, infixB, Bool.or_eq_false_iff] at h
    exact ih h.2

/-- Every whitespace-then-newline split of `t ++ stopMark` lands inside `t`
when `t` has a non-whitespace character: the remainder is a tail of `t` with
the stop still appended, and everything consumed before it is whitespace. -/
theorem wsNlRem_append_stop (t : List Char) (hnw : ∃ c ∈ t, isJsWs c = false) :
    ∀ r ∈ wsNlRem (t ++ stopMark),
      ∃ w g, t = w ++ '\n' :: g ∧ (∀ c ∈ w, isJsWs c = true) ∧ r = g ++ stopMark := by
  induction t with
  | nil =>
    obtain ⟨c, hc, _⟩ := hnw
    simp at hc
  | cons a t' ih =>
    intro r hr
    rw [show (a :: t') ++ stopMark = a :: (t' ++ stopMark) from rfl] at hr
    unfold wsNlRem at hr
    by_cases hws : isJsWs a = true
    · have hnw' : ∃ c ∈ t', isJsWs c = false := by
        obtain ⟨c, hc, hcf⟩ := hnw
        rcases List.mem_cons.mp hc with rfl | hc'
        · rw [hws] at hcf; cases hcf
        · exact ⟨c, hc', hcf⟩
      rw [if_pos hws] at hr
      rcases List.mem_append.mp hr with h1 | h2
      · obtain ⟨w, g, hwg, hwws, hrg⟩ := ih hnw' r h1
        refine ⟨a :: w, g, by rw [hwg]; rfl, ?_, hrg⟩
        intro c hc
        rcases List.mem_cons.mp hc with rfl | hc'
        · exact hws
        · exact hwws c hc'
      · by_cases ha : a = '\n'
        · rw [if_pos ha] at h2
          rw [List.mem_singleton.mp h2, ha]
          exact ⟨[], t', rfl, by simp, rfl⟩
        · rw [if_neg ha] at h2
          simp at h2
    · have ha : ¬ a = '\n' := fun hh => hws (by rw [hh]; decide)
      rw [if_neg hws, if_neg ha] at hr
      simp at hr

/-- After the fence tag and its newline, the backtracking search of the
regex always captures `t` up to some leading whitespace, provided `t`
contains no three-backtick run and some non-whitespace character. -/
theorem afterTag_fence (t : List Char) (hnf : infixB tbt t = false)
    (hnw : ∃ c ∈ t, isJsWs c = false) :
    ∃ w g, afterTag ('\n' :: (t ++ stopMark)) = some g ∧ t = w ++ g ∧
      (∀ c ∈ w, isJsWs c = true) := by
  unfold afterTag
  have hrw : wsNlRem ('\n' :: (t ++ stopMark)) =
      wsNlRem (t ++ stopMark) ++ [t ++ stopMark] := by
    conv_lhs => rw [wsNlRem]
    rw [if_pos (by decide : isJsWs '\n' = true), if_pos rfl]
  rw [hrw]
  cases hx : wsNlRem (t ++ stopMark) with
  | nil =>
    refine ⟨[], t, ?_, rfl, by simp⟩
    simp [List.findSome?, findStop_append_stop t hnf]
  | cons r₀ rs =>
    have hr₀ : r₀ ∈ wsNlRem (t ++ stopMark) := by rw [hx]; exact List.mem_cons_self _ _
    obtain ⟨w, g, hwg, hww, hrg⟩ := wsNlRem_append_stop t hnw r₀ hr₀
    have hg : infixB tbt g = false := by
      apply infixB_of_append tbt (w ++ ['\n']) g
      rw [show (w ++ ['\n']) ++ g = w ++ '\n' :: g by simp]
      rw [← hwg]
      exact hnf
    have hfs : findStop r₀ = some g := by
      rw [hrg]
      exact findStop_append_stop g hg
    refine ⟨w ++ ['\n'], g, ?_, by rw [hwg]; simp, ?_⟩
    · simp [List.findSome?, hfs]
    · intro c hc
      rcases List.mem_append.mp hc with h1 | h2
      · exact hww c h1
      · rw [List.mem_singleton.mp h2]; decide

/-- Consuming an exact front leaves the rest. -/
theorem dropPre_append (p r : List Char) : dropPre p (p ++ r) = some r := by
  induction p with
  | nil => rfl
  | cons c p' ih => simp [dropPre, ih]

/-- When the pattern is not a front of the text, nothing is consumed. -/
theorem dropPre_eq_none (p l : List Char) (h : p.isPrefixOf l = false) :
    dropPre p l = none := by
  match p, l with
  | [], l => simp [List.isPrefixOf] at h
  | c :: p', [] => rfl
  | c :: p', d :: l' =>
    simp only [List.isPrefixOf, Bool.and_eq_false_iff] at h
    unfold dropPre
    rcases h with h | h
    · rw [if_neg (by simpa using h)]
    · by_cases hcd : c = d
      · rw [if_pos hcd]
        exact dropPre_eq_none p' l' h
      · rw [if_neg hcd]

/-- Without a three-backtick run in the text, the extraction regex matches
nowhere. -/
theorem firstGroup_eq_none_of_no_fence (l : List Char) (h : infixB tbt l = false) :
    firstGroup l = none := by
  induction l with
  | nil => rfl
  | cons c cs ih =>
    simp only [infixB, Bool.or_eq_false_iff] at h
    have hm : matchAt (c :: cs) = none := by
      unfold matchAt
      rw [dropPre_eq_none tbt (c :: cs) h.1]
    simp [firstGroup, hm, ih h.2]

/-- Dropping an all-whitespace front does not change the JavaScript trim. -/
theorem jsTrim_ws_append (w g : List Char) (hw : ∀ c ∈ w, isJsWs c = true) :
    jsTrim (w ++ g) = jsTrim g := by
  unfold jsTrim ltrimWs
  congr 1
  induction w with
  | nil => rfl
  | cons c w' ih =>
    rw [List.cons_append, List.dropWhile_cons_of_pos]
    · exact ih fun x hx => hw x (List.mem_cons_of_mem c hx)
    · simpa using hw c (List.mem_cons_self c w')

/-- An all-whitespace list trims to nothing. -/
theorem jsTrim_eq_nil_of_all_ws (cs : List Char) (h : ∀ c ∈ cs, isJsWs c = true) :
    jsTrim cs = [] := by
  unfold jsTrim ltrimWs rtrimWs
  have h1 : List.dropWhile isJsWs cs = [] :=
    List.dropWhile_eq_nil_iff.mpr (by simpa using h)
  rw [h1]
  rfl

/-- A list with a non-empty trim has a non-whitespace character. -/
theorem exists_nonws_of_jsTrim_ne_nil (cs : List Char) (h : jsTrim cs ≠ []) :
    ∃ c ∈ cs, isJsWs c = false := by
  by_contra hc
  push_neg at hc
  refine h (jsTrim_eq_nil_of_all_ws cs fun c hm => ?_)
  have := hc c hm
  revert this
  cases isJsWs c <;> simp

/-- A successful anchored match at the head position is the leftmost match. -/
theorem firstGroup_cons_some (c : Char) (cs g : List Char)
    (h : matchAt (c :: cs) = some g) : firstGroup (c :: cs) = some g := by
  unfold firstGroup
  rw [h]
  rfl

/-- `extractToonContent` on a packed character list, unfolded once. -/
theorem extractToonContent_mk (cs : List Char) :
    extractToonContent ⟨cs⟩ =
      (match firstGroup cs with
       | some g =>
         if g ≠ [] then some ⟨jsTrim g⟩
         else if jsTrim cs ≠ [] then some ⟨jsTrim cs⟩ else none
       | none => if jsTrim cs ≠ [] then some ⟨jsTrim cs⟩ else none) := rfl

/-- C5 counterexample: on the un-fenced non-empty input consisting of a space
and `a`, the extractor returns the trimmed text `a`, not the whole text. -/
theorem c5_whole_text_counterexample :
    extractToonContent " a" = some "a" ∧ ("a" : String) ≠ " a" :=
  ⟨by decide, by decide⟩

/-- C5 amended: for every text `t` holding no three-backtick fence marker and
whose trimmed form is non-empty, wrapping `t` in a fenced block tagged
`toon`, tagged `yaml`, or untagged yields the same extracted substring as
extracting the unfenced `t` alone; on the un-fenced input the extractor
returns the trimmed whole text (not the text verbatim). -/
theorem c5_fenced_extraction (t : List Char)
    (hnf : infixB tbt t = false) (hne : jsTrim t ≠ []) :
    extractToonContent ⟨tbt ++ (toonTag ++ '\n' :: (t ++ stopMark))⟩ = some ⟨jsTrim t⟩ ∧
    extractToonContent ⟨tbt ++ (yamlTag ++ '\n' :: (t ++ stopMark))⟩ = some ⟨jsTrim t⟩ ∧
    extractToonContent ⟨tbt ++ ('\n' :: (t ++ stopMark))⟩ = some ⟨jsTrim t⟩ ∧
    extractToonContent ⟨t⟩ = some ⟨jsTrim t⟩ := by
  have hnw := exists_nonws_of_jsTrim_ne_nil t hne
  obtain ⟨w, g, hat, hwg, hww⟩ := afterTag_fence t hnf hnw
  have hgt : jsTrim g = jsTrim t := by
    rw [hwg, jsTrim_ws_append w g hww]
  have hgne : g ≠ [] := by
    intro h0
    rw [h0] at hgt
    exact hne (by rw [← hgt]; rfl)
  have hm1 : matchAt (tbt ++ (toonTag ++ '\n' :: (t ++ stopMark))) = some g := by
    unfold matchAt
    rw [dropPre_append tbt (toonTag ++ '\n' :: (t ++ stopMark))]
    simp only [dropPre_append toonTag ('\n' :: (t ++ stopMark)), Option.some_bind, hat]
    rfl
  have hm2 : matchAt (tbt ++ (yamlTag ++ '\n' :: (t ++ stopMark))) = some g := by
    unfold matchAt
    rw [dropPre_append tbt (yamlTag ++ '\n' :: (t ++ stopMark))]
    have hty : dropPre toonTag (yamlTag ++ '\n' :: (t ++ stopMark)) = none := by
      simp [toonTag, yamlTag, dropPre]
    simp only [hty, Option.none_bind,
      dropPre_append yamlTag ('\n' :: (t ++ stopMark)), Option.some_bind, hat]
    rfl
  have hm3 : matchAt (tbt ++ ('\n' :: (t ++ stopMark))) = some g := by
    unfold matchAt
    rw [dropPre_append tbt ('\n' :: (t ++ stopMark))]
    have hty : dropPre toonTag ('\n' :: (t ++ stopMark)) = none := by
      simp [toonTag, dropPre]
    have hyy : dropPre yamlTag ('\n' :: (t ++ stopMark)) = none := by
      simp [yamlTag, dropPre]
    simp only [hty, hyy, Option.none_bind, hat]
    rfl
  have hfg1 : firstGroup (tbt ++ (toonTag ++ '\n' :: (t ++ stopMark))) = some g :=
    firstGroup_cons_some _ _ g hm1
  have hfg2 : firstGroup (tbt ++ (yamlTag ++ '\n' :: (t ++ stopMark))) = some g :=
    firstGroup_cons_some _ _ g hm2
  have hfg3 : firstGroup (tbt ++ ('\n' :: (t ++ stopMark))) = some g :=
    firstGroup_cons_some _ _ g hm3
  refine ⟨?_, ?_, ?_, ?_⟩
  · rw [extractToonContent_mk, hfg1]
    simp [hgne, hgt]
  · rw [extractToonContent_mk, hfg2]
    simp [hgne, hgt]
  · rw [extractToonContent_mk, hfg3]
    simp [hgne, hgt]
  · rw [extractToonContent_mk, firstGroup_eq_none_of_no_fence t hnf]
    simp [hne]

/-- C5 witness: the fenced and unfenced extractions agree on the concrete
text `a: 1`. -/
theorem c5_fenced_extraction_witness :
    infixB tbt ("a: 1").data = false ∧ jsTrim ("a: 1").data ≠ [] ∧
    (extractToonContent ⟨tbt ++ (toonTag ++ '\n' :: (("a: 1").data ++ stopMark))⟩ =
      some ⟨jsTrim ("a: 1").data⟩ ∧
     extractToonContent ⟨tbt ++ (yamlTag ++ '\n' :: (("a: 1").data ++ stopMark))⟩ =
      some ⟨jsTrim ("a: 1").data⟩ ∧
     extractToonContent ⟨tbt ++ ('\n' :: (("a: 1").data ++ stopMark))⟩ =
      some ⟨jsTrim ("a: 1").data⟩ ∧
     extractToonContent ⟨("a: 1").data⟩ = some ⟨jsTrim ("a: 1").data⟩) :=
  ⟨by decide, by decide, c5_fenced_extraction ("a: 1").data (by decide) (by decide)⟩

/-- C10 witness: a validator that throws the plain value `boom` makes `parse`
surface exactly that value. -/
theorem c10_non_zod_error_rethrown_witness :
    parse (fun _ _ => .ok .null)
      (fun _ : Value => .error (.other "boom") : Value → Except (Thrown String) Nat)
      (resolveOptions {}) "k: v" = .error (.rethrown "boom") :=
  (c10_non_zod_error_rethrown (fun _ _ => .ok .null)
    (fun _ : Value => .error (.other "boom")) (resolveOptions {}) "k: v" "k: v"
    .null "boom" (by decide) (by decide) rfl rfl).1

end ToonRepo
